import Mathlib

/-!
Verification of the plugin identity registry of `nonebot.plugin`
(`src/nonebot/plugin/__init__.py`).

The registry state is shallowly embedded:

* the module-level dict `_plugins : Dict[Union[str, Tuple[str, ...]], Plugin]`
  is split into the two disjoint key spaces it actually uses, an association
  list keyed by `str` (short names) and one keyed by `Tuple[str, ...]`
  (full paths); Python `dict` insertion overwrites (modelled by consing, with
  lookup returning the first hit) and `del` removes the key (modelled by
  erasing every pair with that key);
* `_managers : List[PluginManager]` only matters through `list.index`, i.e.
  through each manager's position; managers are identified with their
  position, so the state only keeps how many managers exist and
  `_managers.index(m) = m` for every registered manager `m < managerCount`;
* `_current_plugin_chain : ContextVar[Tuple[Plugin, ...]]` becomes a list of
  plugins, outermost first (a single logical task is modelled);
* `Plugin` records carry a creation stamp `pid` standing for Python object
  identity; the live module handle (`module : ModuleType`) carries no
  information used by the registry and is omitted.
-/

namespace NoneBot

/-- A registered plugin record.  Fields mirror `nonebot.plugin.model.Plugin`
(that file is outside the provided sources; the fields used here are exactly
the ones the registry code reads: `name`, `module_name`, `manager`,
`plugin_fullpath`, `parent_plugin`, plus the identity stamp `pid`).
`parent_plugin` stores the parent's `pid`; the `sub_plugins` sets live in the
registry state as a relation on `pid`s so that records stay immutable. -/
structure Plugin where
  pid : Nat
  name : String
  module_name : String
  manager : Option Nat
  plugin_fullpath : List String
  parent_plugin : Option Nat
deriving Repr, DecidableEq

/-- Association-list lookup: first binding wins, like a Python `dict` whose
inserts cons a fresh binding in front. -/
def mlookup [DecidableEq α] : List (α × β) → α → Option β
  | [], _ => none
  | (k, v) :: rest, a => if k = a then some v else mlookup rest a

/-- Python `d[k] = v`: the new binding shadows every older one. -/
def minsert [DecidableEq α] (m : List (α × β)) (k : α) (v : β) : List (α × β) :=
  (k, v) :: m

/-- Python `del d[k]`: every binding of `k` disappears. -/
def merase [DecidableEq α] : List (α × β) → α → List (α × β)
  | [], _ => []
  | (k, v) :: rest, a => if k = a then merase rest a else (k, v) :: merase rest a

/-- The registry state: the two key spaces of `_plugins`, the manager count
(see module comment), the current plugin chain, the `sub_plugins` relation
(pairs `(parent pid, child pid)`), and the next identity stamp. -/
structure St where
  byName : List (String × Plugin)
  byPath : List (List String × Plugin)
  managerCount : Nat
  chain : List Plugin
  subs : List (Nat × Nat)
  nextId : Nat
deriving Repr, DecidableEq

/-- The empty registry. -/
def initSt : St := ⟨[], [], 0, [], [], 0⟩

/-- Split a character list at `'.'`: Python `str.split(".")` on the
character level (`""` gives `[""]`, separators at the ends give empty
segments), written structurally so the kernel can evaluate it. -/
def splitDotsAux : List Char → List Char → List (List Char)
  | [], acc => [acc.reverse]
  | c :: rest, acc =>
    if c = '.' then acc.reverse :: splitDotsAux rest []
    else splitDotsAux rest (c :: acc)

/-- Python `module_name.split(".")`, the list of dot-separated segments. -/
def splitDots (s : String) : List String :=
  (splitDotsAux s.data []).map fun l => ⟨l⟩

/-- Python `".".join(segs)` for the splits used here. -/
def joinDots : List String → String
  | [] => ""
  | [x] => x
  | x :: y :: rest => x ++ "." ++ joinDots (y :: rest)

/-- The last element of a list of segments (`split` never returns an empty
list, so the default is never consulted). -/
def lastSeg : List String → String
  | [] => ""
  | [x] => x
  | _ :: y :: rest => lastSeg (y :: rest)

/-- `_module_name_to_plugin_name`: `module_name.rsplit(".", 1)[-1]`, i.e. the
last dot-separated segment (`rsplit` splits at most once, at the last dot,
so its last element is the last segment of the full split). -/
def module_name_to_plugin_name (module_name : String) : String :=
  lastSeg (splitDots module_name)

/-- `_managers.index(pre_plugin.manager) < _managers.index(manager)` for a
chain plugin's manager `pm` against the given manager `m`; manager ids are
their positions, so this is `<` on ids.  A chain plugin with no manager would
make the Python source raise `ValueError` inside `list.index`; reachable
chains only hold managed plugins, where this function agrees with the source.
-/
def managerBefore (pm : Option Nat) (m : Nat) : Bool :=
  match pm with
  | some x => x < m
  | none => false

/-- `_plugin_name_to_plugin_fullpath`: with no manager, the chain of parent
names followed by the plugin name; with a manager, scan the chain innermost
first (`reversed(parents)`) for the first plugin whose manager has a strictly
lower index, and nest under it, else the plugin is top-level. -/
def plugin_name_to_plugin_fullpath (s : St) (plugin_name : String)
    (manager : Option Nat) : List String :=
  match manager with
  | none => s.chain.map Plugin.name ++ [plugin_name]
  | some m =>
    match s.chain.reverse.find? (fun pre => managerBefore pre.manager m) with
    | some pre => pre.plugin_fullpath ++ [plugin_name]
    | none => [plugin_name]

/-- The errors the registry can raise: `RuntimeError("Plugin already
exists…")`, `RuntimeError("Plugin not found!")`, and the `KeyError` that
`del` or `set.remove` raises on a missing element. -/
inductive RegErr
  | duplicatePlugin
  | pluginNotFound
  | keyError
deriving Repr, DecidableEq

/-- Result of `_new_plugin`: the state after the call (unchanged when the
call raises), the error raised if any, and the returned plugin if any. -/
structure RegResult where
  st : St
  err : Option RegErr
  plugin : Option Plugin
deriving Repr, DecidableEq

/-- `parent.sub_plugins.add(child)`: Python `set.add`, a no-op when already
present. -/
def subAdd (subs : List (Nat × Nat)) (q c : Nat) : List (Nat × Nat) :=
  if (q, c) ∈ subs then subs else (q, c) :: subs

/-- `parent.sub_plugins.remove(child)` after a successful membership check:
drop the pair. -/
def subErase : List (Nat × Nat) → Nat → Nat → List (Nat × Nat)
  | [], _, _ => []
  | pr :: rest, q, c =>
    if pr = (q, c) then subErase rest q c else pr :: subErase rest q c

/-- `_new_plugin`: derive the short name and full path, raise
`duplicatePlugin` when the full path is already a key, otherwise build the
record and insert it under both keys.  The parent link (`parent_plugin` and
the parent's `sub_plugins`) is Modelled from the spec: `nonebot.plugin.model`
and `nonebot.plugin.manager` are outside the provided sources, and the spec
says registration sets `parent_plugin` to the plugin one level up in
`plugin_fullpath` and appends the new plugin to that parent's `sub_plugins`.
-/
def new_plugin (s : St) (module_name : String) (manager : Option Nat) :
    RegResult :=
  let plugin_name := module_name_to_plugin_name module_name
  let plugin_fullpath := plugin_name_to_plugin_fullpath s plugin_name manager
  if (mlookup s.byPath plugin_fullpath).isSome then
    ⟨s, some .duplicatePlugin, none⟩
  else
    let parent := mlookup s.byPath plugin_fullpath.dropLast
    let plugin : Plugin :=
      ⟨s.nextId, plugin_name, module_name, manager, plugin_fullpath,
        parent.map Plugin.pid⟩
    ⟨{ s with
        byName := minsert s.byName plugin_name plugin
        byPath := minsert s.byPath plugin_fullpath plugin
        subs := match parent with
          | some q => subAdd s.subs q.pid plugin.pid
          | none => s.subs
        nextId := s.nextId + 1 },
      none, some plugin⟩

/-- Result of `_revert_plugin`: Python mutates the module-level dict in
place, so the state reached when an exception is raised mid-way is returned
together with the error. -/
structure RevResult where
  st : St
  err : Option RegErr
deriving Repr, DecidableEq

/-- `_revert_plugin`: raise `pluginNotFound` when the short-name key is
absent; otherwise `del` the short-name key, then `del` the full-path key
(a `KeyError` when absent, with the first deletion already applied), then
remove the plugin from its parent's `sub_plugins` (`set.remove`, a
`KeyError` when absent). -/
def revert_plugin (s : St) (plugin : Plugin) : RevResult :=
  if (mlookup s.byName plugin.name).isNone then
    ⟨s, some .pluginNotFound⟩
  else
    let s1 := { s with byName := merase s.byName plugin.name }
    if (mlookup s1.byPath plugin.plugin_fullpath).isNone then
      ⟨s1, some .keyError⟩
    else
      let s2 := { s1 with byPath := merase s1.byPath plugin.plugin_fullpath }
      match plugin.parent_plugin with
      | none => ⟨s2, none⟩
      | some q =>
        if (q, plugin.pid) ∈ s2.subs then
          ⟨{ s2 with subs := subErase s2.subs q plugin.pid }, none⟩
        else
          ⟨s2, some .keyError⟩

/-- `get_plugin`: keyed lookup in `_plugins`; the `str`/`tuple` key union
becomes a sum. -/
def get_plugin (s : St) (name : String ⊕ List String) : Option Plugin :=
  match name with
  | Sum.inl n => mlookup s.byName n
  | Sum.inr k => mlookup s.byPath k

/-- The values of `_plugins` (each plugin listed once per key binding).
Python's dict preserves insertion order; which of several plugins sharing a
`module_name` wins the comprehension in `get_plugin_by_module_name` depends
on that order, which this embedding does not track - no claim below depends
on the tie-break. -/
def pluginValues (s : St) : List Plugin :=
  s.byName.map Prod.snd ++ s.byPath.map Prod.snd

/-- `loaded = {plugin.module_name: plugin for plugin in _plugins.values()}`
followed by `loaded.get(m)`: the comprehension keeps the last plugin with a
given `module_name`, i.e. the first hit scanning the values backwards. -/
def moduleIndex (s : St) (m : String) : Option Plugin :=
  (pluginValues s).reverse.find? (fun p => decide (p.module_name = m))

/-- The `while has_parent` loop of `get_plugin_by_module_name`, acting on the
reversed list of dot-separated segments (innermost segment first), so that
`rsplit(".", 1)`'s dropping of the last segment is the structural tail.
`joinDots revSegs.reverse` is the module name the loop holds: `rsplit` at the
last dot splits `joinDots` of `n+1` segments into `joinDots` of the first `n`
and the last segment, because segments are dot-free. -/
def walkRev (s : St) : List String → Option Plugin
  | [] => none
  | seg :: revRest =>
    match moduleIndex s (joinDots (seg :: revRest).reverse) with
    | some p => some p
    | none => walkRev s revRest

/-- `get_plugin_by_module_name`: check the module name itself, then keep
dropping the last dot-separated segment. -/
def get_plugin_by_module_name (s : St) (module_name : String) : Option Plugin :=
  walkRev s (splitDots module_name).reverse

/-- Fuel-instrumented copy of the loop: one unit of fuel per iteration,
`none` when the fuel runs out before the loop exits. -/
def walkRevFuel (s : St) : Nat → List String → Option (Option Plugin)
  | _, [] => some none
  | 0, _ :: _ => none
  | fuel + 1, seg :: revRest =>
    match moduleIndex s (joinDots (seg :: revRest).reverse) with
    | some p => some (some p)
    | none => walkRevFuel s fuel revRest

/-- The candidate module names `get_plugin_by_module_name` is specified to
try, longest first, as described by the spec: "walks the given identifier
outward by repeatedly dropping the last dot-separated segment".  Stated on
the reversed segment list like `walkRev`. -/
def ancRev : List String → List String
  | [] => []
  | seg :: revRest =>
    joinDots (seg :: revRest).reverse :: ancRev revRest

/-! ### Map lemmas -/

theorem mlookup_eq_none_iff [DecidableEq α] {m : List (α × β)} {k : α} :
    mlookup m k = none ↔ ∀ kv ∈ m, kv.1 ≠ k := by
  induction m with
  | nil => simp [mlookup]
  | cons kv rest ih =>
    obtain ⟨k', v⟩ := kv
    by_cases h : k' = k <;> simp [mlookup, h, ih]

theorem merase_of_lookup_none [DecidableEq α] {m : List (α × β)} {k : α}
    (h : mlookup m k = none) : merase m k = m := by
  induction m with
  | nil => rfl
  | cons kv rest ih =>
    obtain ⟨k', v⟩ := kv
    rw [mlookup_eq_none_iff] at h
    have hk : k' ≠ k := h (k', v) (List.mem_cons_self _ _)
    have hrest : mlookup rest k = none := by
      rw [mlookup_eq_none_iff]
      exact fun kv hkv => h kv (List.mem_cons_of_mem _ hkv)
    simp [merase, hk, ih hrest]

theorem mlookup_merase [DecidableEq α] (m : List (α × β)) (k a : α) :
    mlookup (merase m k) a = if a = k then none else mlookup m a := by
  induction m with
  | nil => simp [merase, mlookup]
  | cons kv rest ih =>
    obtain ⟨k', v⟩ := kv
    by_cases hk : k' = k
    · subst hk
      by_cases ha : a = k'
      · subst ha
        simp [merase, mlookup, ih]
      · simp [merase, mlookup, ha, Ne.symm ha, ih]
    · by_cases ha : k' = a
      · subst ha
        simp [merase, mlookup, hk, fun h : k' = k => hk h, ih,
          show ¬ k' = k from hk]
      · simp [merase, mlookup, hk, ha, ih]

theorem mlookup_merase_self [DecidableEq α] (m : List (α × β)) (k : α) :
    mlookup (merase m k) k = none := by
  simp [mlookup_merase]

theorem mlookup_merase_ne [DecidableEq α] {m : List (α × β)} {k a : α}
    (h : a ≠ k) : mlookup (merase m k) a = mlookup m a := by
  simp [mlookup_merase, h]

theorem mem_subErase {subs : List (Nat × Nat)} {q c : Nat} {pr : Nat × Nat} :
    pr ∈ subErase subs q c ↔ pr ∈ subs ∧ pr ≠ (q, c) := by
  induction subs with
  | nil => simp [subErase]
  | cons hd rest ih =>
    simp only [subErase]
    split_ifs with h
    · subst h
      rw [ih]
      simp only [List.mem_cons]
      constructor
      · exact fun ⟨h1, h2⟩ => ⟨Or.inr h1, h2⟩
      · rintro ⟨h1 | h1, h2⟩
        · exact absurd h1 h2
        · exact ⟨h1, h2⟩
    · simp only [List.mem_cons, ih]
      constructor
      · rintro (rfl | ⟨h1, h2⟩)
        · exact ⟨Or.inl rfl, h⟩
        · exact ⟨Or.inr h1, h2⟩
      · rintro ⟨rfl | h1, h2⟩
        · exact Or.inl rfl
        · exact Or.inr ⟨h1, h2⟩

theorem mem_subAdd (subs : List (Nat × Nat)) (q c : Nat) :
    (q, c) ∈ subAdd subs q c := by
  unfold subAdd
  split
  · assumption
  · exact List.mem_cons_self _ _

/-! ### Shape of computed full paths -/

theorem fullpath_concat (s : St) (nm : String) (mgr : Option Nat) :
    ∃ L, plugin_name_to_plugin_fullpath s nm mgr = L ++ [nm] := by
  unfold plugin_name_to_plugin_fullpath
  cases mgr with
  | none => exact ⟨_, rfl⟩
  | some m =>
    cases h : s.chain.reverse.find? fun pre => managerBefore pre.manager m with
    | none => exact ⟨[], by simp [h]⟩
    | some pre => exact ⟨pre.plugin_fullpath, by simp [h]⟩

theorem fullpath_getLast (s : St) (nm : String) (mgr : Option Nat) :
    (plugin_name_to_plugin_fullpath s nm mgr).getLast? = some nm := by
  obtain ⟨L, hL⟩ := fullpath_concat s nm mgr
  rw [hL]
  exact List.getLast?_concat L

/-! ### Reachable registry states

The loading collaborator (`nonebot.plugin.load` / `nonebot.plugin.manager`,
outside the provided sources) drives the registry as the spec describes:
managers are appended to `_managers` and never removed; a load registers the
plugin and immediately pushes it onto the current chain, popping it when the
load (or its rollback) finishes; a rollback reverts a plugin previously
minted by `new_plugin` (every such plugin's full path ends in its name).
States reachable through successful calls: -/

/-- Push the plugin a successful `new_plugin` returned onto the chain. -/
def pushNew (r : RegResult) : St :=
  match r.plugin with
  | some p => { r.st with chain := r.st.chain ++ [p] }
  | none => r.st

inductive Reachable : St → Prop
  | init : Reachable initSt
  | addManager {s : St} : Reachable s →
      Reachable { s with managerCount := s.managerCount + 1 }
  | register {s : St} (module_name : String) (m : Nat) : Reachable s →
      m < s.managerCount → (new_plugin s module_name (some m)).err = none →
      Reachable (new_plugin s module_name (some m)).st
  | beginLoad {s : St} (module_name : String) (m : Nat) : Reachable s →
      m < s.managerCount → (new_plugin s module_name (some m)).err = none →
      Reachable (pushNew (new_plugin s module_name (some m)))
  | endLoad {s : St} : Reachable s →
      Reachable { s with chain := s.chain.dropLast }
  | revert {s : St} (p : Plugin) : Reachable s →
      p.plugin_fullpath.getLast? = some p.name →
      (revert_plugin s p).err = none →
      Reachable (revert_plugin s p).st

/-- The registry invariants the claims rest on: full-path keys store plugins
carrying exactly that path, name keys store plugins carrying exactly that
name, every name-keyed plugin still owns its full-path entry, every stored
plugin's path ends in its name, and the outermost chain plugin is top-level.
-/
structure Inv (s : St) : Prop where
  pathKey : ∀ k p, mlookup s.byPath k = some p → p.plugin_fullpath = k
  nameKey : ∀ n p, mlookup s.byName n = some p → p.name = n
  nameToPath : ∀ n p, mlookup s.byName n = some p →
    mlookup s.byPath p.plugin_fullpath = some p
  nameWf : ∀ n p, mlookup s.byName n = some p →
    p.plugin_fullpath.getLast? = some p.name
  pathWf : ∀ k p, mlookup s.byPath k = some p →
    p.plugin_fullpath.getLast? = some p.name
  headOk : ∀ a l, s.chain = a :: l → a.plugin_fullpath = [a.name]

/-! ### Unfolding lemmas for `new_plugin` and `revert_plugin` -/

/-- The record a successful `new_plugin` call mints (proof-side abbreviation,
definitionally the `plugin` built inside `new_plugin`). -/
def mintPlugin (s : St) (module_name : String) (mgr : Option Nat) : Plugin :=
  let nm := module_name_to_plugin_name module_name
  let fp := plugin_name_to_plugin_fullpath s nm mgr
  ⟨s.nextId, nm, module_name, mgr, fp, (mlookup s.byPath fp.dropLast).map Plugin.pid⟩

theorem new_plugin_fail {s : St} {mn : String} {mgr : Option Nat}
    (h : (mlookup s.byPath (plugin_name_to_plugin_fullpath s
      (module_name_to_plugin_name mn) mgr)).isSome) :
    new_plugin s mn mgr = ⟨s, some RegErr.duplicatePlugin, none⟩ := by
  unfold new_plugin
  rw [if_pos h]

theorem new_plugin_success {s : St} {mn : String} {mgr : Option Nat}
    (h : mlookup s.byPath (plugin_name_to_plugin_fullpath s
      (module_name_to_plugin_name mn) mgr) = none) :
    new_plugin s mn mgr =
      ⟨{ s with
          byName := ((mintPlugin s mn mgr).name, mintPlugin s mn mgr) :: s.byName
          byPath := ((mintPlugin s mn mgr).plugin_fullpath, mintPlugin s mn mgr)
            :: s.byPath
          subs := match mlookup s.byPath (plugin_name_to_plugin_fullpath s
              (module_name_to_plugin_name mn) mgr).dropLast with
            | some q => subAdd s.subs q.pid s.nextId
            | none => s.subs
          nextId := s.nextId + 1 },
        none, some (mintPlugin s mn mgr)⟩ := by
  unfold new_plugin mintPlugin
  rw [if_neg (by rw [h]; simp)]
  rfl

theorem new_plugin_err_none_iff (s : St) (mn : String) (mgr : Option Nat) :
    (new_plugin s mn mgr).err = none ↔
      mlookup s.byPath (plugin_name_to_plugin_fullpath s
        (module_name_to_plugin_name mn) mgr) = none := by
  constructor
  · intro h
    cases hl : mlookup s.byPath (plugin_name_to_plugin_fullpath s
        (module_name_to_plugin_name mn) mgr) with
    | none => rfl
    | some q =>
      rw [new_plugin_fail (by rw [hl]; simp)] at h
      simp at h
  · intro h
    rw [new_plugin_success h]

theorem revert_plugin_notfound {s : St} {p : Plugin}
    (h : mlookup s.byName p.name = none) :
    revert_plugin s p = ⟨s, some RegErr.pluginNotFound⟩ := by
  unfold revert_plugin
  rw [if_pos (by rw [h]; rfl)]

/-- One-step unfolding of `revert_plugin` with the `let`s inlined. -/
theorem revert_plugin_eq (s : St) (p : Plugin) :
    revert_plugin s p =
      if (mlookup s.byName p.name).isNone then
        ⟨s, some RegErr.pluginNotFound⟩
      else if (mlookup s.byPath p.plugin_fullpath).isNone then
        ⟨{ s with byName := merase s.byName p.name }, some RegErr.keyError⟩
      else
        match p.parent_plugin with
        | none =>
          ⟨{ s with byName := merase s.byName p.name
                    byPath := merase s.byPath p.plugin_fullpath }, none⟩
        | some q =>
          if (q, p.pid) ∈ s.subs then
            ⟨{ s with byName := merase s.byName p.name
                      byPath := merase s.byPath p.plugin_fullpath
                      subs := subErase s.subs q p.pid }, none⟩
          else
            ⟨{ s with byName := merase s.byName p.name
                      byPath := merase s.byPath p.plugin_fullpath },
              some RegErr.keyError⟩ := rfl

theorem revert_plugin_st_of_success {s : St} {p : Plugin}
    (h : (revert_plugin s p).err = none) :
    (revert_plugin s p).st.byName = merase s.byName p.name ∧
    (revert_plugin s p).st.byPath = merase s.byPath p.plugin_fullpath ∧
    (revert_plugin s p).st.chain = s.chain ∧
    (revert_plugin s p).st.managerCount = s.managerCount := by
  rw [revert_plugin_eq] at h ⊢
  split_ifs at h ⊢ with h1 h2
  revert h
  cases hpp : p.parent_plugin with
  | none => intro h; exact ⟨rfl, rfl, rfl, rfl⟩
  | some q =>
    intro h
    dsimp only at h ⊢
    split_ifs at h ⊢ with h3
    exact ⟨rfl, rfl, rfl, rfl⟩

theorem mlookup_cons [DecidableEq α] (k : α) (v : β) (m : List (α × β)) (a : α) :
    mlookup ((k, v) :: m) a = if k = a then some v else mlookup m a := rfl

theorem mlookup_merase_some [DecidableEq α] {m : List (α × β)} {k a : α} {v : β}
    (h : mlookup (merase m k) a = some v) : a ≠ k ∧ mlookup m a = some v := by
  rw [mlookup_merase] at h
  split_ifs at h with hk
  exact ⟨hk, h⟩

theorem mintPlugin_fullpath (s : St) (mn : String) (mgr : Option Nat) :
    (mintPlugin s mn mgr).plugin_fullpath =
      plugin_name_to_plugin_fullpath s (module_name_to_plugin_name mn) mgr := rfl

theorem mintPlugin_name (s : St) (mn : String) (mgr : Option Nat) :
    (mintPlugin s mn mgr).name = module_name_to_plugin_name mn := rfl

/-- A successful registration preserves the registry invariants. -/
theorem inv_register {s : St} (inv : Inv s) {mn : String} {mgr : Option Nat}
    (hnone : mlookup s.byPath (plugin_name_to_plugin_fullpath s
      (module_name_to_plugin_name mn) mgr) = none) :
    Inv (new_plugin s mn mgr).st := by
  rw [new_plugin_success hnone]
  refine ⟨?_, ?_, ?_, ?_, ?_, ?_⟩
  · intro k p hp
    rw [mlookup_cons] at hp
    split_ifs at hp with hk
    · cases hp
      exact hk
    · exact inv.pathKey k p hp
  · intro n p hp
    rw [mlookup_cons] at hp
    split_ifs at hp with hk
    · cases hp
      exact hk
    · exact inv.nameKey n p hp
  · intro n p hp
    rw [mlookup_cons] at hp
    split_ifs at hp with hk
    · cases hp
      rw [mlookup_cons, if_pos rfl]
    · have hold := inv.nameToPath n p hp
      rw [mlookup_cons]
      split_ifs with hk2
      · rw [mintPlugin_fullpath] at hk2
        rw [← hk2] at hold
        rw [hnone] at hold
        cases hold
      · exact hold
  · intro n p hp
    rw [mlookup_cons] at hp
    split_ifs at hp with hk
    · cases hp
      rw [mintPlugin_fullpath, mintPlugin_name]
      exact fullpath_getLast s (module_name_to_plugin_name mn) mgr
    · exact inv.nameWf n p hp
  · intro k p hp
    rw [mlookup_cons] at hp
    split_ifs at hp with hk
    · cases hp
      rw [mintPlugin_fullpath, mintPlugin_name]
      exact fullpath_getLast s (module_name_to_plugin_name mn) mgr
    · exact inv.pathWf k p hp
  · intro a l hc
    exact inv.headOk a l hc

/-- A successful revert preserves the registry invariants, for any argument
whose full path ends in its own name (true of every plugin `new_plugin`
mints). -/
theorem inv_revert {s : St} (inv : Inv s) {p : Plugin}
    (hwf : p.plugin_fullpath.getLast? = some p.name)
    (herr : (revert_plugin s p).err = none) :
    Inv (revert_plugin s p).st := by
  obtain ⟨hbn, hbp, hch, _⟩ := revert_plugin_st_of_success herr
  refine ⟨?_, ?_, ?_, ?_, ?_, ?_⟩
  · intro k q hq
    rw [hbp] at hq
    exact inv.pathKey k q (mlookup_merase_some hq).2
  · intro n q hq
    rw [hbn] at hq
    exact inv.nameKey n q (mlookup_merase_some hq).2
  · intro n q hq
    rw [hbn] at hq
    obtain ⟨hn, hq0⟩ := mlookup_merase_some hq
    have hold := inv.nameToPath n q hq0
    rw [hbp, mlookup_merase]
    split_ifs with hk
    · exfalso
      have hqwf := inv.nameWf n q hq0
      rw [hk, hwf] at hqwf
      have hqn : q.name = p.name := (Option.some.inj hqwf).symm
      exact hn ((inv.nameKey n q hq0) ▸ hqn)
    · exact hold
  · intro n q hq
    rw [hbn] at hq
    exact inv.nameWf n q (mlookup_merase_some hq).2
  · intro k q hq
    rw [hbp] at hq
    exact inv.pathWf k q (mlookup_merase_some hq).2
  · intro a l hc
    rw [hch] at hc
    exact inv.headOk a l hc

/-- Every reachable registry state satisfies the invariants. -/
theorem reachable_inv {s : St} (h : Reachable s) : Inv s := by
  induction h with
  | init =>
    refine ⟨?_, ?_, ?_, ?_, ?_, ?_⟩ <;> intro a b hc
    · cases hc
    · cases hc
    · cases hc
    · cases hc
    · cases hc
    · cases hc
  | addManager _ ih =>
    exact ⟨ih.pathKey, ih.nameKey, ih.nameToPath, ih.nameWf, ih.pathWf, ih.headOk⟩
  | register mn m _ hm herr ih =>
    exact inv_register ih ((new_plugin_err_none_iff _ mn (some m)).mp herr)
  | beginLoad mn m _ hm herr ih =>
    rename_i s _
    have hnone := (new_plugin_err_none_iff s mn (some m)).mp herr
    have base := inv_register ih hnone
    have hpush : pushNew (new_plugin s mn (some m)) =
        { (new_plugin s mn (some m)).st with
            chain := s.chain ++ [mintPlugin s mn (some m)] } := by
      rw [new_plugin_success hnone]
      rfl
    rw [hpush]
    refine ⟨base.pathKey, base.nameKey, base.nameToPath, base.nameWf,
      base.pathWf, ?_⟩
    intro a l hc
    have hc' : s.chain ++ [mintPlugin s mn (some m)] = a :: l := hc
    cases hs : s.chain with
    | nil =>
      rw [hs] at hc'
      simp only [List.nil_append] at hc'
      have ha : mintPlugin s mn (some m) = a := (List.cons_eq_cons.mp hc').1
      rw [← ha, mintPlugin_fullpath, mintPlugin_name]
      unfold plugin_name_to_plugin_fullpath
      rw [hs]
      rfl
    | cons b rest =>
      rw [hs] at hc'
      have hbc : b :: (rest ++ [mintPlugin s mn (some m)]) = a :: l := by
        simpa using hc'
      rw [← (List.cons_eq_cons.mp hbc).1]
      exact ih.headOk b rest hs
  | endLoad _ ih =>
    rename_i s _
    refine ⟨ih.pathKey, ih.nameKey, ih.nameToPath, ih.nameWf, ih.pathWf, ?_⟩
    intro a l hc
    have hc' : s.chain.dropLast = a :: l := hc
    cases hs : s.chain with
    | nil =>
      rw [hs] at hc'
      cases hc'
    | cons b rest =>
      cases hr : rest with
      | nil =>
        rw [hs, hr] at hc'
        cases hc'
      | cons c rest2 =>
        rw [hs, hr] at hc'
        rw [List.dropLast_cons_of_ne_nil (by simp)] at hc'
        rw [← (List.cons_eq_cons.mp hc').1]
        exact ih.headOk b rest (by rw [hs, hr])
  | revert p _ hwf herr ih =>
    exact inv_revert ih hwf herr

theorem revert_plugin_frame (s : St) (p : Plugin) :
    (revert_plugin s p).st.chain = s.chain ∧
    (revert_plugin s p).st.managerCount = s.managerCount := by
  rw [revert_plugin_eq]
  split_ifs with h1 h2
  · exact ⟨rfl, rfl⟩
  · exact ⟨rfl, rfl⟩
  · split
    · exact ⟨rfl, rfl⟩
    · split_ifs with h3
      · exact ⟨rfl, rfl⟩
      · exact ⟨rfl, rfl⟩

/-! ### Concrete states used by witnesses and counterexamples -/

/-- The record minted by registering module `"a"` via manager `0` in an
empty registry. -/
def pluginA : Plugin := ⟨0, "a", "a", some 0, ["a"], none⟩

/-- Empty registry with one manager. -/
def oneMgrSt : St := ⟨[], [], 1, [], [], 0⟩

theorem oneMgrSt_reachable : Reachable oneMgrSt :=
  Reachable.addManager Reachable.init

/-- Registry after registering module `"a"` via manager `0`. -/
def wSt : St := (new_plugin oneMgrSt "a" (some 0)).st

theorem wSt_reachable : Reachable wSt :=
  Reachable.register "a" 0 oneMgrSt_reachable (by decide) (by decide)

/-- Registry after registering module `"a"` via manager `0` and pushing the
new plugin onto the chain (a load of `"a"` in progress). -/
def wSt3 : St := pushNew (new_plugin oneMgrSt "a" (some 0))

theorem wSt3_reachable : Reachable wSt3 :=
  Reachable.beginLoad "a" 0 oneMgrSt_reachable (by decide) (by decide)

/-! ### Claim C1 -/

/-- C1.  Full-path uniqueness: in every registry state reachable by
successful `register`/`unregister` calls (and manager registrations and
chain pushes/pops), any two plugins stored under full-path keys that carry
the same `plugin_fullpath` are the same record: the full-path-keyed entries
are injective with respect to full paths. -/
theorem c1_fullpath_unique {s : St} (h : Reachable s) (k1 k2 : List String)
    (p q : Plugin) (h1 : mlookup s.byPath k1 = some p)
    (h2 : mlookup s.byPath k2 = some q)
    (hfp : p.plugin_fullpath = q.plugin_fullpath) : p = q := by
  have i := reachable_inv h
  have e1 := i.pathKey k1 p h1
  have e2 := i.pathKey k2 q h2
  have hk : k1 = k2 := by rw [← e1, ← e2, hfp]
  rw [← hk, h1] at h2
  exact Option.some.inj h2

theorem c1_fullpath_unique_witness :
    pluginA = pluginA ∧ mlookup wSt.byPath ["a"] = some pluginA :=
  ⟨c1_fullpath_unique wSt_reachable ["a"] ["a"] pluginA pluginA
      (by decide) (by decide) rfl,
    by decide⟩

/-! ### Claim C9 -/

/-- C9.  Frame property: `_new_plugin` and `_revert_plugin`, successful or
failing, never change the load context (`chain`) or the manager ordering
(`managerCount`); in particular registration does not push onto the chain.
-/
theorem c9_frame (s : St) (module_name : String) (mgr : Option Nat)
    (p : Plugin) :
    ((new_plugin s module_name mgr).st.chain = s.chain ∧
      (new_plugin s module_name mgr).st.managerCount = s.managerCount) ∧
    ((revert_plugin s p).st.chain = s.chain ∧
      (revert_plugin s p).st.managerCount = s.managerCount) := by
  constructor
  · by_cases hdup : (mlookup s.byPath (plugin_name_to_plugin_fullpath s
        (module_name_to_plugin_name module_name) mgr)).isSome
    · rw [new_plugin_fail hdup]
      exact ⟨rfl, rfl⟩
    · rw [new_plugin_success (Option.not_isSome_iff_eq_none.mp hdup)]
      exact ⟨rfl, rfl⟩
  · exact revert_plugin_frame s p

/-! ### Claim C2 -/

/-- C2.  Cross-manager precedence for full-path resolution.  With the chain
holding exactly one plugin `a`: a plugin registered via a later manager
(`a.manager = some m1 < m2`) nests under `a`, and with the roles reversed
(`a.manager = some m2`, registering via `m1 < m2`) the new plugin is
top-level.  In general the resolver scans the chain innermost-to-outermost
and nests under the first entry whose manager index is strictly lower than
the given manager's, and yields a top-level path when there is none. -/
theorem c2_cross_manager (s : St) (plugin_name : String) :
    (∀ a m1 m2, s.chain = [a] → a.manager = some m1 → m1 < m2 →
      plugin_name_to_plugin_fullpath s plugin_name (some m2) =
        a.plugin_fullpath ++ [plugin_name]) ∧
    (∀ a m1 m2, s.chain = [a] → a.manager = some m2 → m1 < m2 →
      plugin_name_to_plugin_fullpath s plugin_name (some m1) = [plugin_name]) ∧
    (∀ m cs a ds, s.chain = cs ++ a :: ds → managerBefore a.manager m = true →
      (∀ p ∈ ds, managerBefore p.manager m = false) →
      plugin_name_to_plugin_fullpath s plugin_name (some m) =
        a.plugin_fullpath ++ [plugin_name]) ∧
    (∀ m, (∀ p ∈ s.chain, managerBefore p.manager m = false) →
      plugin_name_to_plugin_fullpath s plugin_name (some m) = [plugin_name]) := by
  have general : ∀ m cs a ds, s.chain = cs ++ a :: ds →
      managerBefore a.manager m = true →
      (∀ p ∈ ds, managerBefore p.manager m = false) →
      plugin_name_to_plugin_fullpath s plugin_name (some m) =
        a.plugin_fullpath ++ [plugin_name] := by
    intro m cs a ds hchain ha hds
    unfold plugin_name_to_plugin_fullpath
    dsimp only
    rw [hchain, List.reverse_append, List.reverse_cons]
    have hnone : ds.reverse.find? (fun pre => managerBefore pre.manager m)
        = none := by
      rw [List.find?_eq_none]
      intro x hx
      rw [List.mem_reverse] at hx
      simp [hds x hx]
    rw [List.append_assoc, List.find?_append, hnone, Option.none_or,
      List.singleton_append,
      List.find?_cons_of_pos cs.reverse
        (show (fun pre => managerBefore pre.manager m) a = true from ha)]
  have toplevel : ∀ m, (∀ p ∈ s.chain, managerBefore p.manager m = false) →
      plugin_name_to_plugin_fullpath s plugin_name (some m) = [plugin_name] := by
    intro m hall
    unfold plugin_name_to_plugin_fullpath
    dsimp only
    have hnone : s.chain.reverse.find? (fun pre => managerBefore pre.manager m)
        = none := by
      rw [List.find?_eq_none]
      intro x hx
      rw [List.mem_reverse] at hx
      simp [hall x hx]
    rw [hnone]
  refine ⟨?_, ?_, general, toplevel⟩
  · intro a m1 m2 hchain ha h12
    exact general m2 [] a [] hchain (by simp [managerBefore, ha, h12])
      (by intro p hp; cases hp)
  · intro a m1 m2 hchain ha h12
    refine toplevel m1 ?_
    intro p hp
    rw [hchain, List.mem_singleton] at hp
    subst hp
    rw [ha]
    simp only [managerBefore, decide_eq_false_iff_not]
    omega

/-- Plugin record with manager `1`, used for the reversed-roles witness. -/
def pluginA1 : Plugin := ⟨0, "a", "a", some 1, ["a"], none⟩

/-- Two managers, plugin `a` loaded via manager `0` in the chain. -/
def w2St : St := ⟨[("a", pluginA)], [(["a"], pluginA)], 2, [pluginA], [], 1⟩

/-- Two managers, plugin `a` loaded via manager `1` in the chain. -/
def w2StRev : St := ⟨[("a", pluginA1)], [(["a"], pluginA1)], 2, [pluginA1], [], 1⟩

theorem c2_cross_manager_witness :
    plugin_name_to_plugin_fullpath w2St "b" (some 1) = ["a", "b"] ∧
    plugin_name_to_plugin_fullpath w2StRev "b" (some 0) = ["b"] :=
  ⟨(c2_cross_manager w2St "b").1 pluginA 0 1 rfl rfl (by decide),
    (c2_cross_manager w2StRev "b").2.1 pluginA1 0 1 rfl rfl (by decide)⟩

/-! ### Claim C4 -/

/-- C4.  `_new_plugin` raises the duplicate-plugin error exactly when the
computed full path is already a key of the registry; when it raises, the
state is returned unchanged (no key and no parent link is touched); when it
does not raise, both keys are inserted and map to the returned plugin.  The
two validity hypotheses confine the statement to calls the Python source
completes without a `ValueError` from `_managers.index`. -/
theorem c4_register_error_atomic (s : St) (module_name : String)
    (mgr : Option Nat)
    (hmgr : ∀ m, mgr = some m → m < s.managerCount)
    (hchain : ∀ p ∈ s.chain, ∃ pm, p.manager = some pm ∧ pm < s.managerCount) :
    ((new_plugin s module_name mgr).err = some RegErr.duplicatePlugin ↔
      (mlookup s.byPath (plugin_name_to_plugin_fullpath s
        (module_name_to_plugin_name module_name) mgr)).isSome) ∧
    ((new_plugin s module_name mgr).err ≠ none →
      (new_plugin s module_name mgr).st = s) ∧
    ((new_plugin s module_name mgr).err = none →
      mlookup (new_plugin s module_name mgr).st.byName
          (module_name_to_plugin_name module_name) =
        (new_plugin s module_name mgr).plugin ∧
      mlookup (new_plugin s module_name mgr).st.byPath
          (plugin_name_to_plugin_fullpath s
            (module_name_to_plugin_name module_name) mgr) =
        (new_plugin s module_name mgr).plugin) := by
  by_cases hdup : (mlookup s.byPath (plugin_name_to_plugin_fullpath s
      (module_name_to_plugin_name module_name) mgr)).isSome
  · rw [new_plugin_fail hdup]
    exact ⟨⟨fun _ => hdup, fun _ => rfl⟩, fun _ => rfl,
      fun h => Option.noConfusion h⟩
  · have hnone := Option.not_isSome_iff_eq_none.mp hdup
    rw [new_plugin_success hnone]
    refine ⟨⟨fun h => Option.noConfusion h, fun h => absurd h hdup⟩,
      fun h => absurd rfl h, fun _ => ⟨?_, ?_⟩⟩
    · rw [mlookup_cons, if_pos (mintPlugin_name s module_name mgr)]
    · rw [mlookup_cons, if_pos (mintPlugin_fullpath s module_name mgr)]

theorem c4_register_error_atomic_witness :
    (new_plugin wSt "a" (some 0)).err = some RegErr.duplicatePlugin ∧
    (new_plugin wSt "a" (some 0)).st = wSt :=
  ⟨(c4_register_error_atomic wSt "a" (some 0)
        (fun m hm => by cases hm; decide) (by decide)).1.mpr (by decide),
    (c4_register_error_atomic wSt "a" (some 0)
        (fun m hm => by cases hm; decide) (by decide)).2.1 (by decide)⟩

/-! ### Claim C5 -/

/-- C5.  Two-key consistency in every reachable state: a plugin stored under
any full-path key is returned by `get_plugin` at its own `plugin_fullpath`,
and a plugin holding a short-name entry (i.e. not shadowed by a later
registration of the same name) is returned by `get_plugin` both at its name
and at its full path. -/
theorem c5_two_key_consistency {s : St} (h : Reachable s) :
    (∀ k p, mlookup s.byPath k = some p →
      get_plugin s (Sum.inr p.plugin_fullpath) = some p) ∧
    (∀ n p, mlookup s.byName n = some p →
      get_plugin s (Sum.inl p.name) = some p ∧
      get_plugin s (Sum.inr p.plugin_fullpath) = some p) := by
  have i := reachable_inv h
  constructor
  · intro k p hp
    have hk := i.pathKey k p hp
    unfold get_plugin
    rw [hk]
    exact hp
  · intro n p hp
    have hn := i.nameKey n p hp
    constructor
    · unfold get_plugin
      rw [hn]
      exact hp
    · unfold get_plugin
      exact i.nameToPath n p hp

theorem c5_two_key_consistency_witness :
    get_plugin wSt (Sum.inl "a") = some pluginA ∧
    get_plugin wSt (Sum.inr ["a"]) = some pluginA :=
  (c5_two_key_consistency wSt_reachable).2 "a" pluginA (by decide)

/-! ### Claim C6 -/

theorem merase_cons_self [DecidableEq α] (k : α) (v : β) (m : List (α × β)) :
    merase ((k, v) :: m) k = merase m k := by
  simp [merase]

/-- C6 as amended.  `_revert_plugin` raises the plugin-not-found error
exactly when the short-name key is absent, and then leaves the registry
unchanged.  Removal is all-or-nothing only on consistent input: when the
plugin's short-name key, its full-path key, and (if it has a parent) its
entry in the parent's `sub_plugins` are all present, the call succeeds and
removes all of them.  (For a stale plugin handle the call can instead raise
`KeyError` after already deleting the short-name key - see the
counterexample.) -/
theorem c6_unregister_error (s : St) (p : Plugin) :
    ((revert_plugin s p).err = some RegErr.pluginNotFound ↔
      mlookup s.byName p.name = none) ∧
    (mlookup s.byName p.name = none → (revert_plugin s p).st = s) ∧
    ((mlookup s.byName p.name).isSome →
      (mlookup s.byPath p.plugin_fullpath).isSome →
      (∀ q, p.parent_plugin = some q → (q, p.pid) ∈ s.subs) →
      (revert_plugin s p).err = none ∧
      mlookup (revert_plugin s p).st.byName p.name = none ∧
      mlookup (revert_plugin s p).st.byPath p.plugin_fullpath = none ∧
      (∀ q, p.parent_plugin = some q →
        (q, p.pid) ∉ (revert_plugin s p).st.subs)) := by
  by_cases hn : mlookup s.byName p.name = none
  · rw [revert_plugin_notfound hn]
    refine ⟨⟨fun _ => hn, fun _ => rfl⟩, fun _ => rfl, fun h1 _ _ => ?_⟩
    rw [hn] at h1
    simp at h1
  · have hc1 : ¬ ((mlookup s.byName p.name).isNone = true) := by
      simp [Option.isNone_iff_eq_none, hn]
    by_cases hp : mlookup s.byPath p.plugin_fullpath = none
    · have heq : revert_plugin s p =
          ⟨{ s with byName := merase s.byName p.name }, some RegErr.keyError⟩ := by
        rw [revert_plugin_eq, if_neg hc1,
          if_pos (by simp [Option.isNone_iff_eq_none, hp])]
      rw [heq]
      refine ⟨⟨fun h => by simp at h, fun h => absurd h hn⟩,
        fun h => absurd h hn, fun _ h2 _ => ?_⟩
      rw [hp] at h2
      simp at h2
    · have hc2 : ¬ ((mlookup s.byPath p.plugin_fullpath).isNone = true) := by
        simp [Option.isNone_iff_eq_none, hp]
      cases hpar : p.parent_plugin with
      | none =>
        have heq : revert_plugin s p =
            ⟨{ s with byName := merase s.byName p.name
                      byPath := merase s.byPath p.plugin_fullpath }, none⟩ := by
          rw [revert_plugin_eq, if_neg hc1, if_neg hc2]
          simp only [hpar]
        rw [heq]
        refine ⟨⟨fun h => by simp at h, fun h => absurd h hn⟩,
          fun h => absurd h hn, fun _ _ _ => ⟨rfl, ?_, ?_, ?_⟩⟩
        · exact mlookup_merase_self _ _
        · exact mlookup_merase_self _ _
        · intro q hq
          exact Option.noConfusion hq
      | some q0 =>
        by_cases hsub : (q0, p.pid) ∈ s.subs
        · have heq : revert_plugin s p =
              ⟨{ s with byName := merase s.byName p.name
                        byPath := merase s.byPath p.plugin_fullpath
                        subs := subErase s.subs q0 p.pid }, none⟩ := by
            rw [revert_plugin_eq, if_neg hc1, if_neg hc2]
            simp only [hpar]
            rw [if_pos hsub]
          rw [heq]
          refine ⟨⟨fun h => by simp at h, fun h => absurd h hn⟩,
            fun h => absurd h hn, fun _ _ _ => ⟨rfl, ?_, ?_, ?_⟩⟩
          · exact mlookup_merase_self _ _
          · exact mlookup_merase_self _ _
          · intro q hq
            rw [← Option.some.inj hq]
            simp [mem_subErase]
        · have heq : revert_plugin s p =
              ⟨{ s with byName := merase s.byName p.name
                        byPath := merase s.byPath p.plugin_fullpath },
                some RegErr.keyError⟩ := by
            rw [revert_plugin_eq, if_neg hc1, if_neg hc2]
            simp only [hpar]
            rw [if_neg hsub]
          rw [heq]
          refine ⟨⟨fun h => by simp at h, fun h => absurd h hn⟩,
            fun h => absurd h hn, fun _ _ hsubs => ?_⟩
          exact absurd (hsubs q0 rfl) hsub

theorem c6_unregister_error_witness :
    (revert_plugin wSt pluginA).err = none ∧
    mlookup (revert_plugin wSt pluginA).st.byName "a" = none ∧
    mlookup (revert_plugin wSt pluginA).st.byPath ["a"] = none := by
  have h := (c6_unregister_error wSt pluginA).2.2 (by decide) (by decide)
    (fun q hq => by cases hq)
  exact ⟨h.1, h.2.1, h.2.2.1⟩

/-! #### C6 counterexample trace

Managers `0` and `1`.  Register `x` via manager `0` and push it; nested,
register module `a` via manager `1` (full path `["x", "a"]`, child of `x`),
revert it cleanly, and register module `a` again (the record `pluginP`,
`pid 2`).  Pop `x`.  Reverting the stale first record (`pluginP2`) now
deletes `pluginP`'s two keys and raises `KeyError` on the `sub_plugins`
removal, leaving `(0, 2)` dangling in `subs`.  Register module `z.a`
(short name `a`, full path `["a"]`, the record `pluginP3`).  Reverting
`pluginP` now finds its short-name key (bound to `pluginP3`), deletes it,
and raises `KeyError` at the absent full-path key `["x", "a"]`: the
registry is changed, yet `pluginP` is not removed from its parent's
`sub_plugins` - removal is not all-or-nothing. -/

def mgr2St : St := ⟨[], [], 2, [], [], 0⟩
def pluginX : Plugin := ⟨0, "x", "x", some 0, ["x"], none⟩
def pluginP2 : Plugin := ⟨1, "a", "a", some 1, ["x", "a"], some 0⟩
def pluginP : Plugin := ⟨2, "a", "a", some 1, ["x", "a"], some 0⟩
def pluginP3 : Plugin := ⟨3, "a", "z.a", some 0, ["a"], none⟩
def trace6a : St := pushNew (new_plugin mgr2St "x" (some 0))
def trace6b : St := (new_plugin trace6a "a" (some 1)).st
def trace6c : St := (revert_plugin trace6b pluginP2).st
def trace6d : St := (new_plugin trace6c "a" (some 1)).st
def trace6e : St := { trace6d with chain := trace6d.chain.dropLast }
def trace6f : St := (revert_plugin trace6e pluginP2).st
def trace6g : St := (new_plugin trace6f "z.a" (some 0)).st

/-- C6 counterexample: at `trace6g`, reverting `pluginP` has its short-name
key present (so no plugin-not-found), yet the call raises `KeyError`,
changes the registry, and leaves `pluginP` in its parent's `sub_plugins`:
the claimed all-or-nothing disjunction fails. -/
theorem c6_unregister_error_counterexample :
    (new_plugin mgr2St "x" (some 0)).plugin = some pluginX ∧
    (new_plugin trace6a "a" (some 1)).plugin = some pluginP2 ∧
    (revert_plugin trace6b pluginP2).err = none ∧
    (new_plugin trace6c "a" (some 1)).plugin = some pluginP ∧
    (new_plugin trace6f "z.a" (some 0)).plugin = some pluginP3 ∧
    mlookup trace6g.byName pluginP.name = some pluginP3 ∧
    (revert_plugin trace6g pluginP).err = some RegErr.keyError ∧
    (revert_plugin trace6g pluginP).st ≠ trace6g ∧
    pluginP.parent_plugin = some pluginX.pid ∧
    (pluginX.pid, pluginP.pid) ∈ (revert_plugin trace6g pluginP).st.subs := by
  decide

/-! ### Claim C7 -/

/-- Reverting a plugin that sits freshly inserted at the head of both key
maps (its name and path fresh below) succeeds and restores both maps,
removing the plugin from its parent's `sub_plugins`. -/
theorem revert_inserted (byName0 : List (String × Plugin))
    (byPath0 : List (List String × Plugin)) (mc : Nat) (chain : List Plugin)
    (subs0 : List (Nat × Nat)) (nid : Nat) (pl : Plugin)
    (hn : mlookup byName0 pl.name = none)
    (hp : mlookup byPath0 pl.plugin_fullpath = none)
    (hin : ∀ q, pl.parent_plugin = some q → (q, pl.pid) ∈ subs0) :
    (revert_plugin ⟨(pl.name, pl) :: byName0, (pl.plugin_fullpath, pl)
        :: byPath0, mc, chain, subs0, nid⟩ pl).err = none ∧
    (revert_plugin ⟨(pl.name, pl) :: byName0, (pl.plugin_fullpath, pl)
        :: byPath0, mc, chain, subs0, nid⟩ pl).st.byName = byName0 ∧
    (revert_plugin ⟨(pl.name, pl) :: byName0, (pl.plugin_fullpath, pl)
        :: byPath0, mc, chain, subs0, nid⟩ pl).st.byPath = byPath0 ∧
    (∀ q, pl.parent_plugin = some q →
      (q, pl.pid) ∉ (revert_plugin ⟨(pl.name, pl) :: byName0,
        (pl.plugin_fullpath, pl) :: byPath0, mc, chain, subs0, nid⟩
          pl).st.subs) := by
  have hbn : merase ((pl.name, pl) :: byName0) pl.name = byName0 := by
    rw [merase_cons_self, merase_of_lookup_none hn]
  have hbp : merase ((pl.plugin_fullpath, pl) :: byPath0) pl.plugin_fullpath
      = byPath0 := by
    rw [merase_cons_self, merase_of_lookup_none hp]
  have hc1 : ¬ ((mlookup ((pl.name, pl) :: byName0) pl.name).isNone = true) := by
    rw [mlookup_cons, if_pos rfl]
    simp
  have hc2 : ¬ ((mlookup ((pl.plugin_fullpath, pl) :: byPath0)
      pl.plugin_fullpath).isNone = true) := by
    rw [mlookup_cons, if_pos rfl]
    simp
  rw [revert_plugin_eq]
  dsimp only
  rw [if_neg hc1, if_neg hc2]
  cases hpar : pl.parent_plugin with
  | none =>
    refine ⟨rfl, hbn, hbp, ?_⟩
    intro q hq
    exact Option.noConfusion hq
  | some q0 =>
    dsimp only
    rw [if_pos (hin q0 hpar)]
    refine ⟨rfl, hbn, hbp, ?_⟩
    intro q hq
    rw [← Option.some.inj hq]
    simp [mem_subErase]

/-- C7.  Removal round-trip: registering a module whose short name and
computed full path are both fresh and then immediately reverting the
returned plugin succeeds and restores the registry's key maps exactly, and
the plugin is absent from its parent's `sub_plugins` afterwards. -/
theorem c7_removal_roundtrip (s : St) (module_name : String) (mgr : Option Nat)
    (hn : mlookup s.byName (module_name_to_plugin_name module_name) = none)
    (hp : mlookup s.byPath (plugin_name_to_plugin_fullpath s
      (module_name_to_plugin_name module_name) mgr) = none) :
    (new_plugin s module_name mgr).err = none ∧
    (new_plugin s module_name mgr).plugin =
      some (mintPlugin s module_name mgr) ∧
    (revert_plugin (new_plugin s module_name mgr).st
        (mintPlugin s module_name mgr)).err = none ∧
    (revert_plugin (new_plugin s module_name mgr).st
        (mintPlugin s module_name mgr)).st.byName = s.byName ∧
    (revert_plugin (new_plugin s module_name mgr).st
        (mintPlugin s module_name mgr)).st.byPath = s.byPath ∧
    (∀ q, (mintPlugin s module_name mgr).parent_plugin = some q →
      (q, (mintPlugin s module_name mgr).pid) ∉
        (revert_plugin (new_plugin s module_name mgr).st
          (mintPlugin s module_name mgr)).st.subs) := by
  rw [new_plugin_success hp]
  dsimp only
  refine ⟨rfl, rfl, ?_⟩
  refine revert_inserted s.byName s.byPath _ _ _ _
    (mintPlugin s module_name mgr) hn hp ?_
  intro q hq
  have hq2 : (mlookup s.byPath (plugin_name_to_plugin_fullpath s
      (module_name_to_plugin_name module_name) mgr).dropLast).map Plugin.pid
      = some q := hq
  obtain ⟨qq, hqq, hpid⟩ := Option.map_eq_some'.mp hq2
  simp only [hqq]
  rw [← hpid]
  exact mem_subAdd s.subs qq.pid s.nextId

theorem c7_removal_roundtrip_witness :
    (new_plugin oneMgrSt "a" (some 0)).err = none ∧
    (new_plugin oneMgrSt "a" (some 0)).plugin =
      some (mintPlugin oneMgrSt "a" (some 0)) ∧
    (revert_plugin (new_plugin oneMgrSt "a" (some 0)).st
        (mintPlugin oneMgrSt "a" (some 0))).err = none ∧
    (revert_plugin (new_plugin oneMgrSt "a" (some 0)).st
        (mintPlugin oneMgrSt "a" (some 0))).st.byName = oneMgrSt.byName ∧
    (revert_plugin (new_plugin oneMgrSt "a" (some 0)).st
        (mintPlugin oneMgrSt "a" (some 0))).st.byPath = oneMgrSt.byPath ∧
    (∀ q, (mintPlugin oneMgrSt "a" (some 0)).parent_plugin = some q →
      (q, (mintPlugin oneMgrSt "a" (some 0)).pid) ∉
        (revert_plugin (new_plugin oneMgrSt "a" (some 0)).st
          (mintPlugin oneMgrSt "a" (some 0))).st.subs) :=
  c7_removal_roundtrip oneMgrSt "a" (some 0) (by decide) (by decide)

/-! ### Claim C3 -/

/-- C3 as amended.  With the chain exactly `[a]` and `a` registered under
its full path: a plugin registered with *no* manager nests under `a`
(`plugin_fullpath = a.plugin_fullpath ++ [name]`, `parent_plugin = a`,
membership in `a`'s `sub_plugins`); but a plugin registered with the *same*
manager as `a` does **not** nest - the resolver demands a strictly lower
manager index, so the new plugin is top-level with no parent. -/
theorem c3_nesting (s : St) (a : Plugin) (module_name : String)
    (hr : Reachable s) (hchain : s.chain = [a])
    (hreg : mlookup s.byPath a.plugin_fullpath = some a) :
    ((new_plugin s module_name none).err = none →
      ∃ b, (new_plugin s module_name none).plugin = some b ∧
        b.plugin_fullpath = a.plugin_fullpath ++ [b.name] ∧
        b.parent_plugin = some a.pid ∧
        (a.pid, b.pid) ∈ (new_plugin s module_name none).st.subs) ∧
    (∀ m, a.manager = some m →
      (new_plugin s module_name (some m)).err = none →
      ∃ b, (new_plugin s module_name (some m)).plugin = some b ∧
        b.plugin_fullpath = [b.name] ∧ b.parent_plugin = none) := by
  have hhead : a.plugin_fullpath = [a.name] := (reachable_inv hr).headOk a [] hchain
  constructor
  · intro herr
    have hnone := (new_plugin_err_none_iff s module_name none).mp herr
    have hfp : plugin_name_to_plugin_fullpath s
        (module_name_to_plugin_name module_name) none =
        a.plugin_fullpath ++ [module_name_to_plugin_name module_name] := by
      unfold plugin_name_to_plugin_fullpath
      dsimp only
      rw [hchain, hhead]
      rfl
    have hdrop : (plugin_name_to_plugin_fullpath s
        (module_name_to_plugin_name module_name) none).dropLast =
        a.plugin_fullpath := by
      rw [hfp]
      exact List.dropLast_concat
    rw [new_plugin_success hnone]
    refine ⟨mintPlugin s module_name none, rfl, ?_, ?_, ?_⟩
    · rw [mintPlugin_fullpath, mintPlugin_name, hfp]
    · show (mlookup s.byPath (plugin_name_to_plugin_fullpath s
          (module_name_to_plugin_name module_name) none).dropLast).map
          Plugin.pid = some a.pid
      rw [hdrop, hreg]
      rfl
    · dsimp only
      simp only [hdrop, hreg]
      exact mem_subAdd s.subs a.pid s.nextId
  · intro m hm herr
    have hnone := (new_plugin_err_none_iff s module_name (some m)).mp herr
    have hfp2 : plugin_name_to_plugin_fullpath s
        (module_name_to_plugin_name module_name) (some m) =
        [module_name_to_plugin_name module_name] := by
      unfold plugin_name_to_plugin_fullpath
      dsimp only
      have hfind : (s.chain.reverse.find?
          fun pre => managerBefore pre.manager m) = none := by
        rw [List.find?_eq_none]
        intro x hx
        rw [List.mem_reverse, hchain, List.mem_singleton] at hx
        subst hx
        simp only [hm, managerBefore, decide_eq_true_eq]
        omega
      rw [hfind]
    have hempty : mlookup s.byPath ([] : List String) = none := by
      cases hL : mlookup s.byPath ([] : List String) with
      | none => rfl
      | some pp =>
        have h1 := (reachable_inv hr).pathKey [] pp hL
        have h2 := (reachable_inv hr).pathWf [] pp hL
        rw [h1] at h2
        exact Option.noConfusion h2
    rw [new_plugin_success hnone]
    refine ⟨mintPlugin s module_name (some m), rfl, ?_, ?_⟩
    · rw [mintPlugin_fullpath, mintPlugin_name, hfp2]
    · show (mlookup s.byPath (plugin_name_to_plugin_fullpath s
          (module_name_to_plugin_name module_name) (some m)).dropLast).map
          Plugin.pid = none
      rw [hfp2, List.dropLast_single, hempty]
      rfl

theorem c3_nesting_witness :
    (∃ b, (new_plugin wSt3 "c" none).plugin = some b ∧
        b.plugin_fullpath = pluginA.plugin_fullpath ++ [b.name] ∧
        b.parent_plugin = some pluginA.pid ∧
        (pluginA.pid, b.pid) ∈ (new_plugin wSt3 "c" none).st.subs) ∧
    (∃ b, (new_plugin wSt3 "b" (some 0)).plugin = some b ∧
        b.plugin_fullpath = [b.name] ∧ b.parent_plugin = none) :=
  ⟨(c3_nesting wSt3 pluginA "c" wSt3_reachable (by decide) (by decide)).1
      (by decide),
    (c3_nesting wSt3 pluginA "b" wSt3_reachable (by decide) (by decide)).2 0
      rfl (by decide)⟩

/-- C3 counterexample to the claim as stated: with the chain `[pluginA]`
(`pluginA` registered via manager `0` with full path `["a"]`), registering
module `"b"` via the *same* manager `0` succeeds with full path `["b"]`,
not `pluginA.plugin_fullpath ++ ["b"] = ["a", "b"]`: a same-manager plugin
does not nest under the loading plugin. -/
theorem c3_nesting_counterexample :
    wSt3.chain = [pluginA] ∧
    pluginA.manager = some 0 ∧
    mlookup wSt3.byPath pluginA.plugin_fullpath = some pluginA ∧
    (new_plugin wSt3 "b" (some 0)).err = none ∧
    (new_plugin wSt3 "b" (some 0)).plugin =
      some ⟨1, "b", "b", some 0, ["b"], none⟩ ∧
    pluginA.plugin_fullpath ++ ["b"] = ["a", "b"] ∧
    (["b"] : List String) ≠ ["a", "b"] := by
  decide

/-! ### Claim C8 -/

theorem moduleIndex_eq_none {s : St} {m : String}
    (h : ∀ r ∈ pluginValues s, r.module_name ≠ m) : moduleIndex s m = none := by
  unfold moduleIndex
  rw [List.find?_eq_none]
  intro x hx
  rw [List.mem_reverse] at hx
  simp [h x hx]

theorem moduleIndex_eq_some {s : St} {m : String} {p : Plugin}
    (hmem : p ∈ pluginValues s) (hmod : p.module_name = m)
    (huniq : ∀ r ∈ pluginValues s, r.module_name = m → r = p) :
    moduleIndex s m = some p := by
  unfold moduleIndex
  have hsome : ((pluginValues s).reverse.find?
      fun r => decide (r.module_name = m)).isSome := by
    rw [List.find?_isSome]
    exact ⟨p, List.mem_reverse.mpr hmem, by simp [hmod]⟩
  obtain ⟨q, hq⟩ := Option.isSome_iff_exists.mp hsome
  rw [hq]
  have hqmem := List.mem_of_find?_eq_some hq
  rw [List.mem_reverse] at hqmem
  have hqmod := List.find?_some hq
  simp only [decide_eq_true_eq] at hqmod
  rw [huniq q hqmem hqmod]

/-- The loop of `get_plugin_by_module_name` returns the first hit of the
module index over the spec's candidate list (the module name with its last
dot-separated segment dropped repeatedly), i.e. the longest matching
prefix. -/
theorem walkRev_eq_findSome (s : St) (rl : List String) :
    walkRev s rl = (ancRev rl).findSome? (moduleIndex s) := by
  induction rl with
  | nil => rfl
  | cons x r ih =>
    rw [show walkRev s (x :: r) =
        (match moduleIndex s (joinDots (x :: r).reverse) with
          | some p => some p
          | none => walkRev s r) from rfl,
      show ancRev (x :: r) = joinDots (x :: r).reverse :: ancRev r from rfl]
    simp only [List.findSome?_cons]
    cases moduleIndex s (joinDots (x :: r).reverse) with
    | none => exact ih
    | some q => rfl

/-- C8.  `get_plugin_by_module_name` equals the first (longest-prefix) hit
of the module index over the chain of dot-ancestors of the query; in
particular with `"pkg.foo"` registered (uniquely) and no plugin registered
at `"pkg.foo.bar"` or `"pkg.foo.bar.baz"`, the query `"pkg.foo.bar.baz"`
returns that plugin, and with nothing registered at `"unrelated.mod"` or
`"unrelated"` the query `"unrelated.mod"` returns `none`. -/
theorem c8_module_resolution (s : St) (p : Plugin)
    (hmem : p ∈ pluginValues s) (hmod : p.module_name = "pkg.foo")
    (huniq : ∀ r ∈ pluginValues s, r.module_name = "pkg.foo" → r = p)
    (hno1 : ∀ r ∈ pluginValues s, r.module_name ≠ "pkg.foo.bar.baz")
    (hno2 : ∀ r ∈ pluginValues s, r.module_name ≠ "pkg.foo.bar")
    (hno3 : ∀ r ∈ pluginValues s, r.module_name ≠ "unrelated.mod")
    (hno4 : ∀ r ∈ pluginValues s, r.module_name ≠ "unrelated") :
    (∀ t q, get_plugin_by_module_name t q =
      (ancRev (splitDots q).reverse).findSome? (moduleIndex t)) ∧
    get_plugin_by_module_name s "pkg.foo.bar.baz" = some p ∧
    get_plugin_by_module_name s "unrelated.mod" = none := by
  have h1 : moduleIndex s "pkg.foo.bar.baz" = none := moduleIndex_eq_none hno1
  have h2 : moduleIndex s "pkg.foo.bar" = none := moduleIndex_eq_none hno2
  have h3 : moduleIndex s "pkg.foo" = some p := moduleIndex_eq_some hmem hmod huniq
  have h4 : moduleIndex s "unrelated.mod" = none := moduleIndex_eq_none hno3
  have h5 : moduleIndex s "unrelated" = none := moduleIndex_eq_none hno4
  refine ⟨fun t q => walkRev_eq_findSome t _, ?_, ?_⟩
  · show walkRev s ["baz", "bar", "foo", "pkg"] = some p
    rw [show walkRev s ["baz", "bar", "foo", "pkg"] =
        (match moduleIndex s "pkg.foo.bar.baz" with
          | some r => some r
          | none => match moduleIndex s "pkg.foo.bar" with
            | some r => some r
            | none => match moduleIndex s "pkg.foo" with
              | some r => some r
              | none => walkRev s ["pkg"] ) from rfl,
      h1, h2, h3]
  · show walkRev s ["mod", "unrelated"] = none
    rw [show walkRev s ["mod", "unrelated"] =
        (match moduleIndex s "unrelated.mod" with
          | some r => some r
          | none => match moduleIndex s "unrelated" with
            | some r => some r
            | none => none) from rfl,
      h4, h5]

/-- The record minted by registering module `"pkg.foo"` via manager `0` in
an empty registry. -/
def pluginFoo : Plugin := ⟨0, "foo", "pkg.foo", some 0, ["foo"], none⟩

/-- Registry after registering module `"pkg.foo"` via manager `0`. -/
def st8 : St := (new_plugin oneMgrSt "pkg.foo" (some 0)).st

theorem c8_module_resolution_witness :
    get_plugin_by_module_name st8 "pkg.foo.bar.baz" = some pluginFoo ∧
    get_plugin_by_module_name st8 "unrelated.mod" = none :=
  ⟨(c8_module_resolution st8 pluginFoo (by decide) (by decide) (by decide)
      (by decide) (by decide) (by decide) (by decide)).2.1,
    (c8_module_resolution st8 pluginFoo (by decide) (by decide) (by decide)
      (by decide) (by decide) (by decide) (by decide)).2.2⟩

/-! ### Claim C10 -/

/-- One unit of fuel per dropped segment suffices: the loop finishes within
`length` iterations on a reversed segment list of that length. -/
theorem walkRevFuel_spec (s : St) (rl : List String) :
    walkRevFuel s rl.length rl = some (walkRev s rl) := by
  induction rl with
  | nil => rfl
  | cons x r ih =>
    show (match moduleIndex s (joinDots (x :: r).reverse) with
        | some p => some (some p)
        | none => walkRevFuel s r.length r) =
      some (match moduleIndex s (joinDots (x :: r).reverse) with
        | some p => some p
        | none => walkRev s r)
    cases moduleIndex s (joinDots (x :: r).reverse) with
    | some q => rfl
    | none => exact ih

/-- C10.  Termination of `get_plugin_by_module_name`: the loop strictly
consumes one dot-separated segment per iteration, so running it with fuel
equal to the number of segments of the input already yields its result
(never the out-of-fuel marker), for every state and every input string. -/
theorem c10_termination (s : St) (module_name : String) :
    walkRevFuel s (splitDots module_name).reverse.length
        (splitDots module_name).reverse =
      some (get_plugin_by_module_name s module_name) :=
  walkRevFuel_spec s (splitDots module_name).reverse

end NoneBot
